import Mathlib

/-!
# Automated AWS SSO login: shallow embedding of `main.go`

The program has three functions besides `main`:

* `ensureChromeWithRemoteDebuggingEnabled` (main.go 62-85),
* `approveSSOLoginWithChrome` (main.go 87-111),
* `performSSOLogin` (main.go 26-60).

All three only talk to the outside world (HTTP probe, `killall`, `open`, the `aws`
child process, the Chrome DevTools session).  The embedding makes the outcomes of
those calls explicit inputs (`Host`, `LoginCommand`, `Browser`, clock readings) and
makes the calls that the code performs an explicit output (a trace), so that each
function becomes a pure function from outcomes to `(returned error, trace)`.

Conventions.
* A Go `error` value is an `Option GoError`; `none` is `nil`.
* Durations and clock readings are natural numbers of milliseconds.
* The `killall` loop of `ensureChromeWithRemoteDebuggingEnabled` has no bound in the
  source, so its model takes a `fuel` argument and returns `none` when the fuel runs
  out before `killall` reports an error.
* Library behaviour that the source relies on is modelled as the library documents
  it: `strings.Contains`, `bufio.Scanner` (a finite sequence of lines),
  `fmt.Errorf` with and without `%w`, `context.WithTimeout`, `chromedp.Run`
  (actions run in order, the first error is returned) and `exec.CommandContext`
  (the process is killed when the context is done before `Wait` has returned).
-/

namespace SsoLogin

/-! ## Constants (main.go 16-24) -/

def chromeRemoteDebuggingPort : String := "9222"

def selAllowButton : String := "#cli_login_button"

def selLoginSuccessIcon : String := ".awsui-icon-variant-success"

/-- The literal searched for in main.go 49. -/
def userCodeMarker : String := "?user_code="

/-- The value `60*time.Second` of main.go 34 and 95, in milliseconds. -/
def sixtySeconds : Nat := 60000

/-! ## Go errors -/

/-- Go error values.  `leaf msg` is an error without a cause (`errors.New`,
`fmt.Errorf` without `%w`, or an error value made by a library); `wrap msg cause` is
`fmt.Errorf(msg + ": %w", cause)`. -/
inductive GoError where
  | leaf (msg : String)
  | wrap (msg : String) (cause : GoError)
  deriving DecidableEq, Repr

/-- Go `errors.Unwrap`. -/
def GoError.unwrap : GoError → Option GoError
  | .leaf _ => none
  | .wrap _ cause => some cause

/-- Go `err.Error()`. -/
def GoError.text : GoError → String
  | .leaf msg => msg
  | .wrap msg cause => msg ++ ": " ++ cause.text

/-- The error made in main.go 82. -/
def errDebugPortUnreachable : GoError :=
  .leaf "chrome debug port still not reachable after 5s"

/-- Go `context.DeadlineExceeded`, which is what `ctx.Err()` is once the deadline of a
context has passed, and what a chromedp action returns when its context expires. -/
def contextDeadlineExceeded : GoError := .leaf "context deadline exceeded"

/-- The message of main.go 29, up to the `%w` verb. -/
def msgEnsureChrome : String := "error (re)starting chrome with remote debugging enabled"

/-- The message of main.go 56, up to the `%w` verb. -/
def msgApprove : String := "failed approving login with chrome"

/-! ## Contexts and deadlines -/

/-- Go contexts, as far as the program builds them. -/
inductive Ctx where
  | background
  | withCancel (parent : Ctx)
  | withDeadline (parent : Ctx) (deadline : Nat)
  deriving DecidableEq, Repr

/-- Go `ctx.Deadline()`: the earliest deadline on the path to the root. -/
def Ctx.deadline : Ctx → Option Nat
  | .background => none
  | .withCancel parent => parent.deadline
  | .withDeadline parent d =>
    match parent.deadline with
    | none => some d
    | some pd => some (min pd d)

/-- Go `context.WithTimeout(parent, timeout)` executed when the clock reads `now`. -/
def withTimeout (parent : Ctx) (now timeout : Nat) : Ctx :=
  .withDeadline parent (now + timeout)

/-! ## strings.Contains -/

/-- Go `strings.HasPrefix`, on character lists. -/
def startsWith : List Char → List Char → Bool
  | _, [] => true
  | [], _ :: _ => false
  | c :: s, p :: ps => c == p && startsWith s ps

/-- Whether `sub` occurs in `s` at some offset. -/
def containsChars : List Char → List Char → Bool
  | [], sub => sub.isEmpty
  | c :: s, sub => startsWith (c :: s) sub || containsChars s sub

/-- Go `strings.Contains(s, substr)`. -/
def stringsContains (s substr : String) : Bool :=
  containsChars s.data substr.data

/-! ## ensureChromeWithRemoteDebuggingEnabled (main.go 62-85) -/

/-- Outcomes of the host calls made by `ensureChromeWithRemoteDebuggingEnabled`.
`httpGet k` tells whether the `k`-th `http.Get(chromeDebugCheckUrl)` (counting from 0)
returns a nil error; `killall k` tells whether the `k`-th run of `killall` returns a
nil error; `openChrome` is the result of running `open`, which the source discards. -/
structure Host where
  httpGet : Nat → Bool
  killall : Nat → Bool
  openChrome : Option GoError

/-- The host calls of `ensureChromeWithRemoteDebuggingEnabled`, with their outcome. -/
inductive HostEvent where
  | httpGet (reachable : Bool)
  | killall (errNil : Bool)
  | sleep (ms : Nat)
  | openChrome
  deriving DecidableEq, Repr

def HostEvent.isProbe : HostEvent → Bool
  | .httpGet _ => true
  | _ => false

def HostEvent.isKill : HostEvent → Bool
  | .killall _ => true
  | _ => false

def HostEvent.isSleep : HostEvent → Bool
  | .sleep _ => true
  | _ => false

def HostEvent.isLaunch : HostEvent → Bool
  | .openChrome => true
  | _ => false

/-- The loop `for err == nil { time.Sleep(500ms); err = killall.Run() }` of main.go
67-70.  `errNil` is the loop condition, `k` the number of `killall` runs made so far.
The result is `none` when `fuel` iterations were not enough. -/
def killLoop (killall : Nat → Bool) : Nat → Nat → Bool → Option (List HostEvent)
  | _, _, false => some []
  | 0, _, true => none
  | fuel + 1, k, true =>
    (killLoop killall fuel (k + 1) (killall k)).map
      (fun t => HostEvent.sleep 500 :: HostEvent.killall (killall k) :: t)

/-- The loop `for i := 0; i < 5; i++` of main.go 75-81 followed by the `return` of
line 82.  `g` is the number of `http.Get` calls made so far and `remaining` is
`5 - i`. -/
def pollLoop (httpGet : Nat → Bool) : Nat → Nat → Option GoError × List HostEvent
  | _, 0 => (some errDebugPortUnreachable, [])
  | g, remaining + 1 =>
    if httpGet g then (none, [HostEvent.httpGet true])
    else
      ((pollLoop httpGet (g + 1) remaining).1,
        HostEvent.httpGet false :: HostEvent.sleep 1000 ::
          (pollLoop httpGet (g + 1) remaining).2)

/-- The function `ensureChromeWithRemoteDebuggingEnabled` of main.go 62-85: the
returned error and the host calls made, or `none` when the `killall` loop did not
end within `fuel` iterations. -/
def ensureChromeWithRemoteDebuggingEnabled (fuel : Nat) (h : Host) :
    Option (Option GoError × List HostEvent) :=
  if h.httpGet 0 then some (none, [HostEvent.httpGet true])
  else
    match killLoop h.killall fuel 1 (h.killall 0) with
    | none => none
    | some kills =>
      some ((pollLoop h.httpGet 1 5).1,
        [HostEvent.httpGet false, HostEvent.killall (h.killall 0)] ++ kills ++
          [HostEvent.openChrome] ++ (pollLoop h.httpGet 1 5).2)

/-! ## approveSSOLoginWithChrome (main.go 87-111) -/

/-- The chromedp actions the program uses. -/
inductive Action where
  | navigate (url : String)
  | waitVisible (sel : String)
  | click (sel : String)
  deriving DecidableEq, Repr

/-- Outcomes of the remote-control session.  `attach` is the error, if any, that
`chromedp.Run` meets while attaching to the remote allocator and creating the tab,
before it runs an action; `perform a` is the error, if any, that action `a` returns
(`contextDeadlineExceeded` when the context expires while the action waits). -/
structure Browser where
  attach : Option GoError
  perform : Action → Option GoError

/-- The body of `chromedp.Run` once attached: the actions run in order and the first
error ends the run.  Returns the error and the actions that were run. -/
def runActions (perform : Action → Option GoError) :
    List Action → Option GoError × List Action
  | [] => (none, [])
  | a :: rest =>
    match perform a with
    | some e => (some e, [a])
    | none => ((runActions perform rest).1, a :: (runActions perform rest).2)

/-- Go `chromedp.Run(ctx, actions...)`. -/
def chromedpRun (b : Browser) (actions : List Action) : Option GoError × List Action :=
  match b.attach with
  | some e => (some e, [])
  | none => runActions b.perform actions

/-- The four actions passed to `chromedp.Run` in main.go 98-110. -/
def approvalSteps (ssoUrl : String) : List Action :=
  [Action.navigate ssoUrl, Action.waitVisible selAllowButton,
    Action.click selAllowButton, Action.waitVisible selLoginSuccessIcon]

/-- What a call of `approveSSOLoginWithChrome` did: the returned error, the context
handed to `chromedp.Run`, and the actions that were run. -/
structure Approval where
  err : Option GoError
  ctx : Ctx
  executed : List Action
  deriving DecidableEq, Repr

/-- The context built in main.go 89-95 when the clock reads `now`:
`NewRemoteAllocator(context.Background(), ...)` and `NewContext` each derive a
cancellable child, then `context.WithTimeout(ctx, 60*time.Second)`. -/
def approveCtx (now : Nat) : Ctx :=
  withTimeout (Ctx.withCancel (Ctx.withCancel Ctx.background)) now sixtySeconds

/-- The function `approveSSOLoginWithChrome` of main.go 87-111, entered when the
clock reads `now`. -/
def approveSSOLoginWithChrome (now : Nat) (b : Browser) (ssoUrl : String) : Approval :=
  { err := (chromedpRun b (approvalSteps ssoUrl)).1
    ctx := approveCtx now
    executed := (chromedpRun b (approvalSteps ssoUrl)).2 }

/-! ## performSSOLogin (main.go 26-60) -/

/-- Outcomes of the `aws sso login --no-browser` child process: the result of
`cmd.Start()`, the lines that `scanner.Scan()` yields on its standard output until it
returns false (the stream ended, or a line did not fit the buffer of the scanner), and
the result of `cmd.Wait()`.  The error of `cmd.StdoutPipe()` is discarded by the
source (main.go 39) and is nil for a command that was just made. -/
structure LoginCommand where
  start : Option GoError
  stdout : List String
  wait : Option GoError

/-- The loop of main.go 44-53.  Returns the final value of `ssoUrl` and the lines
that were read (each of them is logged). -/
def scanForUrl : List String → String × List String
  | [] => ("", [])
  | line :: rest =>
    if stringsContains line userCodeMarker then (line, [line])
    else ((scanForUrl rest).1, line :: (scanForUrl rest).2)

/-- Everything `performSSOLogin` depends on.  `tAttempt` is the clock reading at
main.go 34 and `tApprove` the clock reading at main.go 95. -/
structure World where
  host : Host
  cmd : LoginCommand
  browser : Browser
  tAttempt : Nat
  tApprove : Nat

/-- The calls made by the body of `performSSOLogin`, in program order, each with what
it did and returned.  `cancel` is the deferred `cancel()` of main.go 35. -/
inductive Call where
  | ensureChrome (events : List HostEvent) (err : Option GoError)
  | withTimeout (ctx : Ctx)
  | cmdStart (err : Option GoError)
  | scan (linesRead : List String)
  | approve (ssoUrl : String) (result : Approval)
  | cmdWait (err : Option GoError)
  | cancel
  deriving DecidableEq, Repr

/-- The context built in main.go 33-34 when the clock reads `now`. -/
def attemptCtx (now : Nat) : Ctx :=
  withTimeout Ctx.background now sixtySeconds

/-- The function `performSSOLogin` of main.go 26-60: the returned error and the calls
made, or `none` when `ensureChromeWithRemoteDebuggingEnabled` does not return within
`fuel` iterations of its `killall` loop. -/
def performSSOLogin (fuel : Nat) (w : World) : Option (Option GoError × List Call) :=
  match ensureChromeWithRemoteDebuggingEnabled fuel w.host with
  | none => none
  | some (some e, events) =>
    some (some (GoError.wrap msgEnsureChrome e), [Call.ensureChrome events (some e)])
  | some (none, events) =>
    match w.cmd.start with
    | some e =>
      some (some e,
        [Call.ensureChrome events none, Call.withTimeout (attemptCtx w.tAttempt),
          Call.cmdStart (some e), Call.cancel])
    | none =>
      match (approveSSOLoginWithChrome w.tApprove w.browser
          (scanForUrl w.cmd.stdout).1).err with
      | some e =>
        some (some (GoError.wrap msgApprove e),
          [Call.ensureChrome events none, Call.withTimeout (attemptCtx w.tAttempt),
            Call.cmdStart none, Call.scan (scanForUrl w.cmd.stdout).2,
            Call.approve (scanForUrl w.cmd.stdout).1
              (approveSSOLoginWithChrome w.tApprove w.browser (scanForUrl w.cmd.stdout).1),
            Call.cancel])
      | none =>
        some (w.cmd.wait,
          [Call.ensureChrome events none, Call.withTimeout (attemptCtx w.tAttempt),
            Call.cmdStart none, Call.scan (scanForUrl w.cmd.stdout).2,
            Call.approve (scanForUrl w.cmd.stdout).1
              (approveSSOLoginWithChrome w.tApprove w.browser (scanForUrl w.cmd.stdout).1),
            Call.cmdWait w.cmd.wait, Call.cancel])

/-! ## Stages of the pipeline -/

/-- The five stages of `performSSOLogin`. -/
inductive Stage where
  | ensureBrowser
  | startCommand
  | scanOutput
  | approve
  | waitExit
  deriving DecidableEq, Repr

/-- The stages in program order. -/
def pipeline : List Stage :=
  [Stage.ensureBrowser, Stage.startCommand, Stage.scanOutput, Stage.approve, Stage.waitExit]

/-- The stage a call belongs to; context bookkeeping belongs to none. -/
def Call.stage : Call → Option Stage
  | .ensureChrome _ _ => some Stage.ensureBrowser
  | .cmdStart _ => some Stage.startCommand
  | .scan _ => some Stage.scanOutput
  | .approve _ _ => some Stage.approve
  | .cmdWait _ => some Stage.waitExit
  | .withTimeout _ => none
  | .cancel => none

/-- The error a call returned to `performSSOLogin`, if any. -/
def Call.err : Call → Option GoError
  | .ensureChrome _ e => e
  | .cmdStart e => e
  | .approve _ r => r.err
  | .cmdWait e => e
  | .scan _ => none
  | .withTimeout _ => none
  | .cancel => none

/-- The stages invoked by a run, in order. -/
def stagesOf (tr : List Call) : List Stage := tr.filterMap Call.stage

/-- What `performSSOLogin` returns for an error `e` met in a call: main.go 29 and 56
wrap it with a message, main.go 41 and 59 return it as it is. -/
def reported (c : Call) (e : GoError) : GoError :=
  match c with
  | .ensureChrome _ _ => GoError.wrap msgEnsureChrome e
  | .approve _ _ => GoError.wrap msgApprove e
  | _ => e

/-! ## The child process under exec.CommandContext -/

/-- Life cycle of the child process made by `exec.CommandContext(ctx, ...)`, as far
as the calls of `performSSOLogin` drive it: `running` is a process that was started
and that no call has yet waited for or killed. -/
inductive Proc where
  | notStarted
  | running
  | reaped
  | killed
  deriving DecidableEq, Repr

/-- Effect of a call of `performSSOLogin` on the child process.  A successful
`cmd.Start()` makes it run; `cmd.Wait()` returns once it has exited; cancelling the
context given to `exec.CommandContext` while the command has not completed kills the
process (`os.Process.Kill`). -/
def Proc.step : Proc → Call → Proc
  | .notStarted, .cmdStart none => .running
  | .running, .cmdWait _ => .reaped
  | .running, .cancel => .killed
  | p, _ => p

/-- State of the child process after a run. -/
def procAfter (tr : List Call) : Proc := tr.foldl Proc.step Proc.notStarted

/-! ## Trace shapes used in the statements -/

/-- The `killall` calls and sleeps made when `killall` returns a nil error `n` times
and then an error. -/
def killEvents : Nat → List HostEvent
  | 0 => [HostEvent.killall false]
  | n + 1 => HostEvent.killall true :: HostEvent.sleep 500 :: killEvents n

/-- The probes and sleeps made by `j` failing polls. -/
def failedPolls : Nat → List HostEvent
  | 0 => []
  | j + 1 => HostEvent.httpGet false :: HostEvent.sleep 1000 :: failedPolls j

/-- Whether a run stops at the first call that returned an error: after such a call
no stage is invoked. -/
def stopsAtFirstError : List Call → Prop
  | [] => True
  | c :: rest => (c.err ≠ none → stagesOf rest = []) ∧ stopsAtFirstError rest

/-- The deadline of the context made in main.go 34, read off a run. -/
def attemptDeadline (tr : List Call) : Option Nat :=
  tr.findSome? fun c =>
    match c with
    | .withTimeout ctx => ctx.deadline
    | _ => none

/-- The deadline of the context that `approveSSOLoginWithChrome` handed to
`chromedp.Run`, read off a run. -/
def approvalDeadline (tr : List Call) : Option Nat :=
  tr.findSome? fun c =>
    match c with
    | .approve _ r => r.ctx.deadline
    | _ => none

/-! ## Concrete scenarios -/

/-- A host whose debugging endpoint is reachable from the start. -/
def hostReachable : Host :=
  { httpGet := fun _ => true, killall := fun _ => false, openChrome := none }

/-- A host where the endpoint is down, two Chrome processes get killed, and the
endpoint answers on the third probe after the launch. -/
def hostRestart : Host :=
  { httpGet := fun k => decide (3 ≤ k)
    killall := fun k => decide (k < 2)
    openChrome := none }

/-- A host where the endpoint never answers and no Chrome process is running. -/
def hostUnreachable : Host :=
  { httpGet := fun _ => false, killall := fun _ => false, openChrome := none }

/-- A browser session in which every action succeeds. -/
def browserApproves : Browser :=
  { attach := none, perform := fun _ => none }

/-- A browser session in which the approval button never becomes visible. -/
def browserButtonNeverVisible : Browser :=
  { attach := none
    perform := fun a =>
      if a = Action.waitVisible selAllowButton then some contextDeadlineExceeded else none }

/-- A browser session in which the success icon never becomes visible. -/
def browserIconNeverVisible : Browser :=
  { attach := none
    perform := fun a =>
      if a = Action.waitVisible selLoginSuccessIcon then some contextDeadlineExceeded
      else none }

/-- The line of the `aws` output that carries the verification URL. -/
def urlLine : String := "https://device.example/activate?user_code=ABCD-1234"

/-- A login command that prints the verification URL and later exits without error. -/
def cmdPrintsUrl : LoginCommand :=
  { start := none
    stdout := ["Browser will not be automatically opened.", urlLine,
      "https://device.example/other?user_code=WXYZ-9876"]
    wait := none }

/-- A login command whose output ends without a line carrying the marker. -/
def cmdNoUrl : LoginCommand :=
  { start := none
    stdout := ["Browser will not be automatically opened."]
    wait := none }

/-- The error of `cmd.Start()` when the `aws` executable is missing. -/
def errAwsNotFound : GoError := .leaf "exec: \"aws\": executable file not found in $PATH"

/-- A login command that cannot be started. -/
def cmdCannotStart : LoginCommand :=
  { start := some errAwsNotFound, stdout := [], wait := none }

/-- The end-to-end success scenario, with the approval entered one second after the
attempt context was made. -/
def worldSuccess : World :=
  { host := hostReachable, cmd := cmdPrintsUrl, browser := browserApproves
    tAttempt := 0, tApprove := 1000 }

/-- The endpoint stays unreachable. -/
def worldBrowserDown : World :=
  { host := hostUnreachable, cmd := cmdPrintsUrl, browser := browserApproves
    tAttempt := 0, tApprove := 1000 }

/-- The `aws` executable is missing. -/
def worldCannotStart : World :=
  { host := hostReachable, cmd := cmdCannotStart, browser := browserApproves
    tAttempt := 0, tApprove := 1000 }

/-- The output ends without the marker and the approval button never shows. -/
def worldNoUrl : World :=
  { host := hostReachable, cmd := cmdNoUrl, browser := browserButtonNeverVisible
    tAttempt := 0, tApprove := 1000 }

/-- The approval button never shows although the URL was printed. -/
def worldButtonNeverVisible : World :=
  { host := hostReachable, cmd := cmdPrintsUrl, browser := browserButtonNeverVisible
    tAttempt := 0, tApprove := 1000 }

/-- The success icon never shows. -/
def worldIconNeverVisible : World :=
  { host := hostReachable, cmd := cmdPrintsUrl, browser := browserIconNeverVisible
    tAttempt := 0, tApprove := 1000 }

/-! ## Lemmas on the two loops of ensureChromeWithRemoteDebuggingEnabled -/

theorem killLoop_false (killall : Nat → Bool) (fuel k : Nat) :
    killLoop killall fuel k false = some [] := by
  cases fuel <;> simp [killLoop]

theorem killLoop_true_succ (killall : Nat → Bool) (fuel k : Nat) :
    killLoop killall (fuel + 1) k true =
      (killLoop killall fuel (k + 1) (killall k)).map
        (fun t => HostEvent.sleep 500 :: HostEvent.killall (killall k) :: t) := by
  simp [killLoop]

/-- When the next `m` runs of `killall` return nil and the one after returns an error,
`m + 1` iterations of the loop are made and the loop ends. -/
theorem killLoop_stops (killall : Nat → Bool) :
    ∀ (fuel k m : Nat), (∀ i, i < m → killall (k + i) = true) → killall (k + m) = false →
      m < fuel → killLoop killall fuel k true = some (HostEvent.sleep 500 :: killEvents m) := by
  intro fuel
  induction fuel with
  | zero => intro k m _ _ hm; omega
  | succ fuel ih =>
    intro k m hall hstop hm
    rw [killLoop_true_succ]
    cases m with
    | zero =>
      have h0 : killall k = false := by simpa using hstop
      simp [h0, killLoop_false, killEvents]
    | succ m =>
      have h0 : killall k = true := by simpa using hall 0 (Nat.succ_pos m)
      have hall2 : ∀ i, i < m → killall (k + 1 + i) = true := by
        intro i hi
        have := hall (i + 1) (Nat.succ_lt_succ hi)
        rwa [show k + 1 + i = k + (i + 1) by omega]
      have hstop2 : killall (k + 1 + m) = false := by
        rwa [show k + 1 + m = k + (m + 1) by omega]
      rw [h0, ih (k + 1) m hall2 hstop2 (by omega)]
      simp [killEvents]

/-- The first `killall` run together with the loop, when `killall` returns nil `n`
times and then an error. -/
theorem killPhase_stops (killall : Nat → Bool) (fuel n : Nat)
    (hall : ∀ i, i < n → killall i = true) (hstop : killall n = false) (hfuel : n ≤ fuel) :
    ∃ kills, killLoop killall fuel 1 (killall 0) = some kills ∧
      HostEvent.killall (killall 0) :: kills = killEvents n := by
  cases n with
  | zero =>
    refine ⟨[], ?_, ?_⟩
    · rw [hstop, killLoop_false]
    · rw [hstop]; rfl
  | succ m =>
    have h0 : killall 0 = true := hall 0 (Nat.succ_pos m)
    have hall2 : ∀ i, i < m → killall (1 + i) = true := by
      intro i hi
      have := hall (i + 1) (Nat.succ_lt_succ hi)
      rwa [show 1 + i = i + 1 by omega]
    have hstop2 : killall (1 + m) = false := by
      rwa [show 1 + m = m + 1 by omega]
    refine ⟨HostEvent.sleep 500 :: killEvents m, ?_, ?_⟩
    · rw [h0]; exact killLoop_stops killall fuel 1 m hall2 hstop2 (by omega)
    · rw [h0]; rfl

/-- The loop ends as soon as some run of `killall` within the fuel returns an error. -/
theorem killLoop_isSome (killall : Nat → Bool) :
    ∀ (fuel k : Nat) (b : Bool),
      (b = false ∨ ∃ n, k ≤ n ∧ n < k + fuel ∧ killall n = false) →
      (killLoop killall fuel k b).isSome = true := by
  intro fuel
  induction fuel with
  | zero =>
    intro k b hb
    rcases hb with hb | ⟨n, h1, h2, _⟩
    · subst hb; simp [killLoop]
    · omega
  | succ fuel ih =>
    intro k b hb
    cases b with
    | false => simp [killLoop]
    | true =>
      rw [killLoop_true_succ]
      rcases hb with hb | ⟨n, h1, h2, h3⟩
      · cases hb
      · have key : (killLoop killall fuel (k + 1) (killall k)).isSome = true := by
          apply ih
          by_cases hk : killall k = false
          · exact Or.inl hk
          · right
            refine ⟨n, ?_, by omega, h3⟩
            rcases Nat.eq_or_lt_of_le h1 with heq | hlt
            · subst heq; exact absurd h3 hk
            · exact hlt
        cases hres : killLoop killall fuel (k + 1) (killall k) with
        | none => rw [hres] at key; cases key
        | some t => simp

theorem countP_isKill_killEvents (n : Nat) :
    (killEvents n).countP HostEvent.isKill = n + 1 := by
  induction n with
  | zero => rfl
  | succ n ih => simp [killEvents, HostEvent.isKill, ih]

theorem countP_isLaunch_killEvents (n : Nat) :
    (killEvents n).countP HostEvent.isLaunch = 0 := by
  induction n with
  | zero => rfl
  | succ n ih => simp [killEvents, HostEvent.isLaunch, ih]

theorem countP_isProbe_killEvents (n : Nat) :
    (killEvents n).countP HostEvent.isProbe = 0 := by
  induction n with
  | zero => rfl
  | succ n ih => simp [killEvents, HostEvent.isProbe, ih]

theorem countP_isKill_failedPolls (j : Nat) :
    (failedPolls j).countP HostEvent.isKill = 0 := by
  induction j with
  | zero => rfl
  | succ j ih => simp [failedPolls, HostEvent.isKill, ih]

theorem countP_isLaunch_failedPolls (j : Nat) :
    (failedPolls j).countP HostEvent.isLaunch = 0 := by
  induction j with
  | zero => rfl
  | succ j ih => simp [failedPolls, HostEvent.isLaunch, ih]

theorem countP_isProbe_failedPolls (j : Nat) :
    (failedPolls j).countP HostEvent.isProbe = j := by
  induction j with
  | zero => rfl
  | succ j ih => simp [failedPolls, HostEvent.isProbe, ih]

/-- The poll loop makes `j` failing probes, where `j` is the number of failing probes
before the first reachable one (at most `remaining`), and returns nil exactly when a
probe succeeded. -/
theorem pollLoop_spec (httpGet : Nat → Bool) :
    ∀ (remaining g : Nat), ∃ j, j ≤ remaining ∧
      (∀ i, i < j → httpGet (g + i) = false) ∧
      (j < remaining → httpGet (g + j) = true) ∧
      pollLoop httpGet g remaining =
        (if j < remaining then none else some errDebugPortUnreachable,
          failedPolls j ++ (if j < remaining then [HostEvent.httpGet true] else [])) := by
  intro remaining
  induction remaining with
  | zero =>
    intro g
    exact ⟨0, le_refl 0, by intro i hi; omega, by intro h; omega, by simp [pollLoop, failedPolls]⟩
  | succ r ih =>
    intro g
    by_cases hg : httpGet g = true
    · refine ⟨0, Nat.zero_le _, by intro i hi; omega, by intro _; simpa using hg, ?_⟩
      simp [pollLoop, hg, failedPolls]
    · have hg2 : httpGet g = false := by simpa using hg
      obtain ⟨j, hj, hfail, hok, heq⟩ := ih (g + 1)
      refine ⟨j + 1, by omega, ?_, ?_, ?_⟩
      · intro i hi
        cases i with
        | zero => simpa using hg2
        | succ i =>
          have := hfail i (by omega)
          rwa [show g + (i + 1) = g + 1 + i by omega]
      · intro hlt
        have := hok (by omega)
        rwa [show g + (j + 1) = g + 1 + j by omega]
      · simp only [pollLoop, hg2, heq, failedPolls, Nat.add_lt_add_iff_right]
        simp

/-! ## Unfolding performSSOLogin along each path -/

theorem ensureChrome_restart (fuel n : Nat) (h : Host) (hprobe : h.httpGet 0 = false)
    (hall : ∀ i, i < n → h.killall i = true) (hstop : h.killall n = false)
    (hfuel : n ≤ fuel) :
    ensureChromeWithRemoteDebuggingEnabled fuel h =
      some ((pollLoop h.httpGet 1 5).1,
        HostEvent.httpGet false :: killEvents n ++
          HostEvent.openChrome :: (pollLoop h.httpGet 1 5).2) := by
  obtain ⟨kills, hk, hev⟩ := killPhase_stops h.killall fuel n hall hstop hfuel
  simp only [ensureChromeWithRemoteDebuggingEnabled, hprobe, hk]
  simp [← hev]

theorem performSSOLogin_ensure_none (fuel : Nat) (w : World)
    (h : ensureChromeWithRemoteDebuggingEnabled fuel w.host = none) :
    performSSOLogin fuel w = none := by
  simp [performSSOLogin, h]

theorem performSSOLogin_ensure_err (fuel : Nat) (w : World) (e : GoError)
    (events : List HostEvent)
    (h : ensureChromeWithRemoteDebuggingEnabled fuel w.host = some (some e, events)) :
    performSSOLogin fuel w =
      some (some (GoError.wrap msgEnsureChrome e), [Call.ensureChrome events (some e)]) := by
  simp [performSSOLogin, h]

theorem performSSOLogin_start_err (fuel : Nat) (w : World) (e : GoError)
    (events : List HostEvent)
    (h : ensureChromeWithRemoteDebuggingEnabled fuel w.host = some (none, events))
    (hs : w.cmd.start = some e) :
    performSSOLogin fuel w =
      some (some e,
        [Call.ensureChrome events none, Call.withTimeout (attemptCtx w.tAttempt),
          Call.cmdStart (some e), Call.cancel]) := by
  simp [performSSOLogin, h, hs]

theorem performSSOLogin_approve_err (fuel : Nat) (w : World) (e : GoError)
    (events : List HostEvent)
    (h : ensureChromeWithRemoteDebuggingEnabled fuel w.host = some (none, events))
    (hs : w.cmd.start = none)
    (ha : (approveSSOLoginWithChrome w.tApprove w.browser
      (scanForUrl w.cmd.stdout).1).err = some e) :
    performSSOLogin fuel w =
      some (some (GoError.wrap msgApprove e),
        [Call.ensureChrome events none, Call.withTimeout (attemptCtx w.tAttempt),
          Call.cmdStart none, Call.scan (scanForUrl w.cmd.stdout).2,
          Call.approve (scanForUrl w.cmd.stdout).1
            (approveSSOLoginWithChrome w.tApprove w.browser (scanForUrl w.cmd.stdout).1),
          Call.cancel]) := by
  simp [performSSOLogin, h, hs, ha]

theorem performSSOLogin_approved (fuel : Nat) (w : World) (events : List HostEvent)
    (h : ensureChromeWithRemoteDebuggingEnabled fuel w.host = some (none, events))
    (hs : w.cmd.start = none)
    (ha : (approveSSOLoginWithChrome w.tApprove w.browser
      (scanForUrl w.cmd.stdout).1).err = none) :
    performSSOLogin fuel w =
      some (w.cmd.wait,
        [Call.ensureChrome events none, Call.withTimeout (attemptCtx w.tAttempt),
          Call.cmdStart none, Call.scan (scanForUrl w.cmd.stdout).2,
          Call.approve (scanForUrl w.cmd.stdout).1
            (approveSSOLoginWithChrome w.tApprove w.browser (scanForUrl w.cmd.stdout).1),
          Call.cmdWait w.cmd.wait, Call.cancel]) := by
  simp [performSSOLogin, h, hs, ha]

/-! ## The browser availability manager: C4, C5, C6 -/

/-- C4. Fast path: when the first probe of the debugging endpoint succeeds,
`ensureChromeWithRemoteDebuggingEnabled` returns nil (for any fuel, so without entering
the `killall` loop) and its trace is the single successful probe: exactly one probe,
no `killall`, no `open`, no sleep. -/
theorem C4_fast_path (fuel : Nat) (h : Host) (hprobe : h.httpGet 0 = true) :
    ∃ tr, ensureChromeWithRemoteDebuggingEnabled fuel h = some (none, tr) ∧
      tr = [HostEvent.httpGet true] ∧
      tr.countP HostEvent.isProbe = 1 ∧
      tr.countP HostEvent.isKill = 0 ∧
      tr.countP HostEvent.isLaunch = 0 ∧
      tr.countP HostEvent.isSleep = 0 := by
  refine ⟨[HostEvent.httpGet true], ?_, rfl, rfl, rfl, rfl, rfl⟩
  simp [ensureChromeWithRemoteDebuggingEnabled, hprobe]

/-- The fast path at a host whose endpoint answers the first probe. -/
theorem C4_fast_path_witness :
    hostReachable.httpGet 0 = true ∧
    ∃ tr, ensureChromeWithRemoteDebuggingEnabled 0 hostReachable = some (none, tr) ∧
      tr = [HostEvent.httpGet true] ∧
      tr.countP HostEvent.isProbe = 1 ∧
      tr.countP HostEvent.isKill = 0 ∧
      tr.countP HostEvent.isLaunch = 0 ∧
      tr.countP HostEvent.isSleep = 0 :=
  ⟨rfl, C4_fast_path 0 hostReachable rfl⟩

/-- C5. Restart path: when the first probe fails and `killall` returns nil `n` times
and then an error, then with fuel for those `n` iterations the function returns, and
its trace is: the failed probe; `n + 1` runs of `killall` (the last one the failing
one, with a 500ms sleep between consecutive runs); one `open`; then `j ≤ 5` failed
probes, each followed by a 1s sleep, and, when `j < 5`, one successful probe after
which nil is returned.  `j` is the number of failing probes before the first reachable
one.  The error of the failing `killall` is never returned: the result is nil, or the
debug-port error when all 5 probes failed.  Nothing after the `open` is a `killall`
or an `open`. -/
theorem C5_restart_path (fuel n : Nat) (h : Host) (hprobe : h.httpGet 0 = false)
    (hall : ∀ i, i < n → h.killall i = true) (hstop : h.killall n = false)
    (hfuel : n ≤ fuel) :
    ∃ res tr polls j,
      ensureChromeWithRemoteDebuggingEnabled fuel h = some (res, tr) ∧
      tr = HostEvent.httpGet false :: killEvents n ++ HostEvent.openChrome :: polls ∧
      tr.countP HostEvent.isKill = n + 1 ∧
      tr.countP HostEvent.isLaunch = 1 ∧
      polls.countP HostEvent.isKill = 0 ∧
      polls.countP HostEvent.isLaunch = 0 ∧
      polls.countP HostEvent.isProbe ≤ 5 ∧
      j ≤ 5 ∧
      (∀ i, i < j → h.httpGet (1 + i) = false) ∧
      (j < 5 → h.httpGet (1 + j) = true) ∧
      polls = failedPolls j ++ (if j < 5 then [HostEvent.httpGet true] else []) ∧
      res = (if j < 5 then none else some errDebugPortUnreachable) := by
  obtain ⟨j, hj, hfail, hok, heq⟩ := pollLoop_spec h.httpGet 5 1
  refine ⟨(pollLoop h.httpGet 1 5).1, _, (pollLoop h.httpGet 1 5).2, j,
    ensureChrome_restart fuel n h hprobe hall hstop hfuel, rfl, ?_, ?_, ?_, ?_, ?_,
    hj, hfail, hok, ?_, ?_⟩
  · rw [heq]
    by_cases hlt : j < 5 <;>
      simp [hlt, List.countP_cons, List.countP_append, HostEvent.isKill,
        countP_isKill_killEvents, countP_isKill_failedPolls]
  · rw [heq]
    by_cases hlt : j < 5 <;>
      simp [hlt, List.countP_cons, List.countP_append, HostEvent.isLaunch,
        countP_isLaunch_killEvents, countP_isLaunch_failedPolls]
  · rw [heq]
    by_cases hlt : j < 5 <;>
      simp [hlt, List.countP_cons, List.countP_append, HostEvent.isKill,
        countP_isKill_failedPolls]
  · rw [heq]
    by_cases hlt : j < 5 <;>
      simp [hlt, List.countP_cons, List.countP_append, HostEvent.isLaunch,
        countP_isLaunch_failedPolls]
  · rw [heq]
    by_cases hlt : j < 5
    · simp [hlt, List.countP_cons, List.countP_append, HostEvent.isProbe,
        countP_isProbe_failedPolls]
      omega
    · simp [hlt, List.countP_cons, List.countP_append, HostEvent.isProbe,
        countP_isProbe_failedPolls]
      omega
  · rw [heq]
  · rw [heq]

/-- The restart path at a host with two Chrome processes to kill and an endpoint that
answers the third probe after the launch. -/
theorem C5_restart_path_witness :
    ∃ res tr polls j,
      ensureChromeWithRemoteDebuggingEnabled 2 hostRestart = some (res, tr) ∧
      tr = HostEvent.httpGet false :: killEvents 2 ++ HostEvent.openChrome :: polls ∧
      tr.countP HostEvent.isKill = 2 + 1 ∧
      tr.countP HostEvent.isLaunch = 1 ∧
      polls.countP HostEvent.isKill = 0 ∧
      polls.countP HostEvent.isLaunch = 0 ∧
      polls.countP HostEvent.isProbe ≤ 5 ∧
      j ≤ 5 ∧
      (∀ i, i < j → hostRestart.httpGet (1 + i) = false) ∧
      (j < 5 → hostRestart.httpGet (1 + j) = true) ∧
      polls = failedPolls j ++ (if j < 5 then [HostEvent.httpGet true] else []) ∧
      res = (if j < 5 then none else some errDebugPortUnreachable) :=
  C5_restart_path 2 2 hostRestart (by decide)
    (by intro i hi; simp [hostRestart, hi]) (by decide) (le_refl 2)

/-- C6. When the initial probe and the 5 probes after the launch all fail (and the
`killall` loop ends, after `n` successful runs, within the fuel),
`ensureChromeWithRemoteDebuggingEnabled` returns the debug-port error after 6 probes,
and `performSSOLogin` returns that error wrapped, so that `errors.Unwrap` gives it
back; the only call `performSSOLogin` made is the browser-ensure one: the login
command is not started, no output is scanned and the approval is not invoked. -/
theorem C6_browser_unavailable (fuel n : Nat) (w : World)
    (hprobes : ∀ k, k ≤ 5 → w.host.httpGet k = false)
    (hall : ∀ i, i < n → w.host.killall i = true) (hstop : w.host.killall n = false)
    (hfuel : n ≤ fuel) :
    ∃ events err tr,
      ensureChromeWithRemoteDebuggingEnabled fuel w.host =
        some (some errDebugPortUnreachable, events) ∧
      events.countP HostEvent.isProbe = 6 ∧
      performSSOLogin fuel w = some (some err, tr) ∧
      err = GoError.wrap msgEnsureChrome errDebugPortUnreachable ∧
      err.unwrap = some errDebugPortUnreachable ∧
      tr = [Call.ensureChrome events (some errDebugPortUnreachable)] ∧
      stagesOf tr = [Stage.ensureBrowser] ∧
      (∀ e, Call.cmdStart e ∉ tr) ∧ (∀ ls, Call.scan ls ∉ tr) ∧
      (∀ u a, Call.approve u a ∉ tr) ∧ (∀ e, Call.cmdWait e ∉ tr) := by
  obtain ⟨j, hj, _, hok, heq⟩ := pollLoop_spec w.host.httpGet 5 1
  have hj5 : ¬ j < 5 := by
    intro hlt
    have h1 := hok hlt
    have h2 := hprobes (1 + j) (by omega)
    rw [h1] at h2
    cases h2
  have hjeq : j = 5 := by omega
  subst hjeq
  have hens := ensureChrome_restart fuel n w.host (hprobes 0 (by omega)) hall hstop hfuel
  rw [heq] at hens
  simp only [lt_irrefl, if_false, List.append_nil] at hens
  refine ⟨_, _, _, hens, ?_, performSSOLogin_ensure_err fuel w _ _ hens, rfl, rfl, rfl,
    rfl, ?_, ?_, ?_, ?_⟩
  · simp [List.countP_cons, List.countP_append, HostEvent.isProbe,
      countP_isProbe_killEvents, countP_isProbe_failedPolls]
  · intro e; simp
  · intro ls; simp
  · intro u a; simp
  · intro e; simp

/-- The unavailable-browser path at a host whose endpoint never answers. -/
theorem C6_browser_unavailable_witness :
    ∃ events err tr,
      ensureChromeWithRemoteDebuggingEnabled 0 worldBrowserDown.host =
        some (some errDebugPortUnreachable, events) ∧
      events.countP HostEvent.isProbe = 6 ∧
      performSSOLogin 0 worldBrowserDown = some (some err, tr) ∧
      err = GoError.wrap msgEnsureChrome errDebugPortUnreachable ∧
      err.unwrap = some errDebugPortUnreachable ∧
      tr = [Call.ensureChrome events (some errDebugPortUnreachable)] ∧
      stagesOf tr = [Stage.ensureBrowser] ∧
      (∀ e, Call.cmdStart e ∉ tr) ∧ (∀ ls, Call.scan ls ∉ tr) ∧
      (∀ u a, Call.approve u a ∉ tr) ∧ (∀ e, Call.cmdWait e ∉ tr) :=
  C6_browser_unavailable 0 0 worldBrowserDown (fun _ _ => rfl)
    (fun i hi => absurd hi (Nat.not_lt_zero i)) rfl (le_refl 0)

/-! ## The orchestrator: C1, C8 -/

theorem stopsAtFirstError_split :
    ∀ (tr : List Call), stopsAtFirstError tr →
      ∀ pre c post, tr = pre ++ c :: post → c.err ≠ none → stagesOf post = [] := by
  intro tr
  induction tr with
  | nil =>
    intro _ pre c post h
    cases pre <;> simp at h
  | cons x rest ih =>
    intro hs pre c post h hc
    cases pre with
    | nil =>
      simp only [List.nil_append, List.cons.injEq] at h
      obtain ⟨hx, hrest⟩ := h
      subst hx; subst hrest
      exact hs.1 hc
    | cons y pre =>
      simp only [List.cons_append, List.cons.injEq] at h
      exact ih hs.2 pre c post h.2 hc

theorem performSSOLogin_isSome (fuel : Nat) (w : World)
    (h : w.host.httpGet 0 = true ∨ ∃ n, n ≤ fuel ∧ w.host.killall n = false) :
    (performSSOLogin fuel w).isSome = true := by
  have hens : (ensureChromeWithRemoteDebuggingEnabled fuel w.host).isSome = true := by
    unfold ensureChromeWithRemoteDebuggingEnabled
    by_cases hp : w.host.httpGet 0 = true
    · simp [hp]
    · have hk : (killLoop w.host.killall fuel 1 (w.host.killall 0)).isSome = true := by
        apply killLoop_isSome
        rcases h with h | ⟨n, hn, hf⟩
        · exact absurd h hp
        · cases n with
          | zero => exact Or.inl hf
          | succ n => exact Or.inr ⟨n + 1, by omega, by omega, hf⟩
      cases hres : killLoop w.host.killall fuel 1 (w.host.killall 0) with
      | none => rw [hres] at hk; cases hk
      | some t => simp [hp]
  unfold performSSOLogin
  rcases hres : ensureChromeWithRemoteDebuggingEnabled fuel w.host with _ | ⟨_ | e, events⟩
  · rw [hres] at hens; cases hens
  · simp only
    cases w.cmd.start with
    | some e => simp
    | none =>
      simp only
      cases (approveSSOLoginWithChrome w.tApprove w.browser (scanForUrl w.cmd.stdout).1).err <;>
        simp
  · simp

/-- C1. `performSSOLogin` is a linear pipeline without retries.  It returns whenever
the first probe succeeds or some `killall` run within the fuel fails.  Whenever it
returns, the stages it invoked are an initial segment of
[browser-ensure, start, scan, approve, wait], without repetition; after a call that
returned an error no stage is invoked; and the result is nil exactly when all five
stages ran and none returned an error, which is exactly when browser-ensure, start
and approval returned nil and `cmd.Wait()` returned nil. -/
theorem C1_linear_pipeline (fuel : Nat) (w : World) :
    ((w.host.httpGet 0 = true ∨ ∃ n, n ≤ fuel ∧ w.host.killall n = false) →
      (performSSOLogin fuel w).isSome = true) ∧
    ∀ res tr, performSSOLogin fuel w = some (res, tr) →
      stagesOf tr <+: pipeline ∧
      (stagesOf tr).Nodup ∧
      (∀ pre c post, tr = pre ++ c :: post → c.err ≠ none → stagesOf post = []) ∧
      (res = none ↔ stagesOf tr = pipeline ∧ ∀ c ∈ tr, c.err = none) ∧
      (res = none ↔
        (∃ events, ensureChromeWithRemoteDebuggingEnabled fuel w.host = some (none, events)) ∧
        w.cmd.start = none ∧
        (approveSSOLoginWithChrome w.tApprove w.browser (scanForUrl w.cmd.stdout).1).err = none ∧
        w.cmd.wait = none) := by
  refine ⟨performSSOLogin_isSome fuel w, ?_⟩
  intro res tr hrun
  rcases hens : ensureChromeWithRemoteDebuggingEnabled fuel w.host with _ | ⟨_ | e, events⟩
  · rw [performSSOLogin_ensure_none fuel w hens] at hrun
    cases hrun
  · rcases hs : w.cmd.start with _ | e
    · rcases ha : (approveSSOLoginWithChrome w.tApprove w.browser
        (scanForUrl w.cmd.stdout).1).err with _ | e
      · rw [performSSOLogin_approved fuel w events hens hs ha] at hrun
        simp only [Option.some.injEq, Prod.mk.injEq] at hrun
        obtain ⟨hres, htr⟩ := hrun
        subst hres; subst htr
        refine ⟨?_, ?_, ?_, ?_, ?_⟩
        · simp [stagesOf, Call.stage, pipeline]
        · simp [stagesOf, Call.stage]
        · apply stopsAtFirstError_split
          simp [stopsAtFirstError, stagesOf, Call.stage, Call.err, ha]
        · simp [stagesOf, Call.stage, pipeline, Call.err, ha]
        · simp
      · rw [performSSOLogin_approve_err fuel w e events hens hs ha] at hrun
        simp only [Option.some.injEq, Prod.mk.injEq] at hrun
        obtain ⟨hres, htr⟩ := hrun
        subst hres; subst htr
        refine ⟨?_, ?_, ?_, ?_, ?_⟩
        · exact ⟨[Stage.waitExit], by simp [stagesOf, Call.stage, pipeline]⟩
        · simp [stagesOf, Call.stage]
        · apply stopsAtFirstError_split
          simp [stopsAtFirstError, stagesOf, Call.stage, Call.err]
        · simp [stagesOf, Call.stage, pipeline]
        · simp
    · rw [performSSOLogin_start_err fuel w e events hens hs] at hrun
      simp only [Option.some.injEq, Prod.mk.injEq] at hrun
      obtain ⟨hres, htr⟩ := hrun
      subst hres; subst htr
      refine ⟨?_, ?_, ?_, ?_, ?_⟩
      · exact ⟨[Stage.scanOutput, Stage.approve, Stage.waitExit],
          by simp [stagesOf, Call.stage, pipeline]⟩
      · simp [stagesOf, Call.stage]
      · apply stopsAtFirstError_split
        simp [stopsAtFirstError, stagesOf, Call.stage, Call.err]
      · simp [stagesOf, Call.stage, pipeline]
      · simp
  · rw [performSSOLogin_ensure_err fuel w e events hens] at hrun
    simp only [Option.some.injEq, Prod.mk.injEq] at hrun
    obtain ⟨hres, htr⟩ := hrun
    subst hres; subst htr
    refine ⟨?_, ?_, ?_, ?_, ?_⟩
    · exact ⟨[Stage.startCommand, Stage.scanOutput, Stage.approve, Stage.waitExit],
        by simp [stagesOf, Call.stage, pipeline]⟩
    · simp [stagesOf, Call.stage]
    · apply stopsAtFirstError_split
      simp [stopsAtFirstError, stagesOf, Call.stage, Call.err]
    · simp [stagesOf, Call.stage, pipeline]
    · simp

/-- The pipeline in the end-to-end success scenario: the run returns nil after all five
stages. -/
theorem C1_linear_pipeline_witness :
    (performSSOLogin 0 worldSuccess).isSome = true ∧
    ∃ tr, performSSOLogin 0 worldSuccess = some (none, tr) ∧
      stagesOf tr = pipeline ∧ ∀ c ∈ tr, c.err = none := by
  have h := C1_linear_pipeline 0 worldSuccess
  refine ⟨h.1 (Or.inl rfl), ?_⟩
  rcases hrun : performSSOLogin 0 worldSuccess with _ | ⟨res, tr⟩
  · have hsome := h.1 (Or.inl rfl)
    rw [hrun] at hsome
    cases hsome
  · have hnil : res = none :=
      (h.2 res tr hrun).2.2.2.2.mpr ⟨⟨[HostEvent.httpGet true], rfl⟩, rfl, rfl, rfl⟩
    subst hnil
    exact ⟨tr, rfl, (h.2 none tr hrun).2.2.2.1.mp rfl⟩

/-! ## URL extraction: C2, C3 -/

/-- The scan loop stops at the first line that contains the marker. -/
theorem scanForUrl_first_match (pre : List String) (l : String) (post : List String)
    (hpre : ∀ x ∈ pre, stringsContains x userCodeMarker = false)
    (hl : stringsContains l userCodeMarker = true) :
    scanForUrl (pre ++ l :: post) = (l, pre ++ [l]) := by
  induction pre with
  | nil => simp [scanForUrl, hl]
  | cons x pre ih =>
    have hx : stringsContains x userCodeMarker = false := hpre x (List.mem_cons_self x pre)
    have ih2 := ih (fun y hy => hpre y (List.mem_cons_of_mem x hy))
    simp [scanForUrl, hx, ih2]

/-- Without a marker line the scan loop reads every line and leaves `ssoUrl` empty. -/
theorem scanForUrl_no_match (lines : List String)
    (h : ∀ x ∈ lines, stringsContains x userCodeMarker = false) :
    scanForUrl lines = ("", lines) := by
  induction lines with
  | nil => rfl
  | cons x rest ih =>
    have hx : stringsContains x userCodeMarker = false := h x (List.mem_cons_self x rest)
    have ih2 := ih (fun y hy => h y (List.mem_cons_of_mem x hy))
    simp [scanForUrl, hx, ih2]

/-- A list with a marker line splits at its first marker line. -/
theorem exists_first_marker_line (lines : List String)
    (h : ∃ l ∈ lines, stringsContains l userCodeMarker = true) :
    ∃ pre l post, lines = pre ++ l :: post ∧
      (∀ x ∈ pre, stringsContains x userCodeMarker = false) ∧
      stringsContains l userCodeMarker = true := by
  induction lines with
  | nil =>
    obtain ⟨l, hl, _⟩ := h
    cases hl
  | cons x rest ih =>
    by_cases hx : stringsContains x userCodeMarker = true
    · exact ⟨[], x, rest, rfl, fun y hy => absurd hy (List.not_mem_nil y), hx⟩
    · have hx2 : stringsContains x userCodeMarker = false := by simpa using hx
      obtain ⟨l, hl, hc⟩ := h
      have hrest : ∃ l ∈ rest, stringsContains l userCodeMarker = true := by
        rcases List.mem_cons.mp hl with heq | hmem
        · subst heq; exact absurd hc hx
        · exact ⟨l, hmem, hc⟩
      obtain ⟨pre, m, post, hsplit, hpre, hm⟩ := ih hrest
      refine ⟨x :: pre, m, post, by simp [hsplit], ?_, hm⟩
      intro y hy
      rcases List.mem_cons.mp hy with heq | hmem
      · subst heq; exact hx2
      · exact hpre y hmem

/-- C2. First match wins.  Whenever some output line contains `?user_code=`, the
lines split as `pre ++ l :: post` with `l` the first line containing the marker; the
scan loop returns `l` as `ssoUrl` having read exactly `pre ++ [l]` (no line of `post`);
if exactly one line contains the marker, `ssoUrl` is that line; and in every run of
`performSSOLogin` on these lines that started the login command, the lines scanned
are `pre ++ [l]`, the approval is invoked with `l`, and with no other URL.  The scan
is a function of the lines, so equal lines give equal results. -/
theorem C2_first_match_wins (lines : List String)
    (h : ∃ l ∈ lines, stringsContains l userCodeMarker = true) :
    ∃ pre l post, lines = pre ++ l :: post ∧
      (∀ x ∈ pre, stringsContains x userCodeMarker = false) ∧
      stringsContains l userCodeMarker = true ∧
      scanForUrl lines = (l, pre ++ [l]) ∧
      (∀ m ∈ lines, stringsContains m userCodeMarker = true →
        (∀ k ∈ lines, stringsContains k userCodeMarker = true → k = m) →
        (scanForUrl lines).1 = m) ∧
      (∀ fuel w res tr, w.cmd.stdout = lines → performSSOLogin fuel w = some (res, tr) →
        Call.cmdStart none ∈ tr →
        Call.scan (pre ++ [l]) ∈ tr ∧ (∃ a, Call.approve l a ∈ tr) ∧
        ∀ u a, Call.approve u a ∈ tr → u = l) := by
  obtain ⟨pre, l, post, hsplit, hpre, hl⟩ := exists_first_marker_line lines h
  have hscan : scanForUrl lines = (l, pre ++ [l]) := by
    rw [hsplit]; exact scanForUrl_first_match pre l post hpre hl
  refine ⟨pre, l, post, hsplit, hpre, hl, hscan, ?_, ?_⟩
  · intro m _ _ huniq
    rw [hscan]
    exact huniq l (by rw [hsplit]; simp) hl
  · intro fuel w res tr hlines hrun hstarted
    rcases hens : ensureChromeWithRemoteDebuggingEnabled fuel w.host with _ | ⟨_ | e, events⟩
    · rw [performSSOLogin_ensure_none fuel w hens] at hrun
      cases hrun
    · rcases hs : w.cmd.start with _ | e
      · rcases ha : (approveSSOLoginWithChrome w.tApprove w.browser
          (scanForUrl w.cmd.stdout).1).err with _ | e
        · rw [performSSOLogin_approved fuel w events hens hs ha] at hrun
          simp only [Option.some.injEq, Prod.mk.injEq] at hrun
          obtain ⟨_, htr⟩ := hrun
          subst htr
          rw [hlines, hscan]
          simp
        · rw [performSSOLogin_approve_err fuel w e events hens hs ha] at hrun
          simp only [Option.some.injEq, Prod.mk.injEq] at hrun
          obtain ⟨_, htr⟩ := hrun
          subst htr
          rw [hlines, hscan]
          simp
      · rw [performSSOLogin_start_err fuel w e events hens hs] at hrun
        simp only [Option.some.injEq, Prod.mk.injEq] at hrun
        obtain ⟨_, htr⟩ := hrun
        subst htr
        simp at hstarted
    · rw [performSSOLogin_ensure_err fuel w e events hens] at hrun
      simp only [Option.some.injEq, Prod.mk.injEq] at hrun
      obtain ⟨_, htr⟩ := hrun
      subst htr
      simp at hstarted

/-- First match wins on an output with two marker lines. -/
theorem C2_first_match_wins_witness :
    ∃ pre l post, cmdPrintsUrl.stdout = pre ++ l :: post ∧
      (∀ x ∈ pre, stringsContains x userCodeMarker = false) ∧
      stringsContains l userCodeMarker = true ∧
      scanForUrl cmdPrintsUrl.stdout = (l, pre ++ [l]) ∧
      (∀ m ∈ cmdPrintsUrl.stdout, stringsContains m userCodeMarker = true →
        (∀ k ∈ cmdPrintsUrl.stdout, stringsContains k userCodeMarker = true → k = m) →
        (scanForUrl cmdPrintsUrl.stdout).1 = m) ∧
      (∀ fuel w res tr, w.cmd.stdout = cmdPrintsUrl.stdout →
        performSSOLogin fuel w = some (res, tr) →
        Call.cmdStart none ∈ tr →
        Call.scan (pre ++ [l]) ∈ tr ∧ (∃ a, Call.approve l a ∈ tr) ∧
        ∀ u a, Call.approve u a ∈ tr → u = l) :=
  C2_first_match_wins cmdPrintsUrl.stdout
    ⟨urlLine, by simp [cmdPrintsUrl], by decide⟩

/-- C3 (the code at a stream without the marker).  With a reachable endpoint, a
login command that starts and whose output is one line without `?user_code=`, the scan
loop reads that line and leaves `ssoUrl` empty; `performSSOLogin` raises no error at
the end of the stream but calls `approveSSOLoginWithChrome("")`, which navigates the
browser to the empty URL; the error that comes back is the one of the approval (here
the deadline of the wait for the approval button), wrapped with the approval message. -/
theorem C3_no_marker_still_approves :
    (∀ x ∈ worldNoUrl.cmd.stdout, stringsContains x userCodeMarker = false) ∧
    scanForUrl worldNoUrl.cmd.stdout = ("", ["Browser will not be automatically opened."]) ∧
    performSSOLogin 0 worldNoUrl =
      some (some (GoError.wrap msgApprove contextDeadlineExceeded),
        [Call.ensureChrome [HostEvent.httpGet true] none,
          Call.withTimeout (attemptCtx 0),
          Call.cmdStart none,
          Call.scan ["Browser will not be automatically opened."],
          Call.approve ""
            { err := some contextDeadlineExceeded
              ctx := approveCtx 1000
              executed := [Action.navigate "", Action.waitVisible selAllowButton] },
          Call.cancel]) := by
  refine ⟨by decide, by decide, by decide⟩

/-! ## The approval sequence: C7 -/

theorem runActions_executed_isPrefix (perform : Action → Option GoError) :
    ∀ (actions : List Action), (runActions perform actions).2 <+: actions := by
  intro actions
  induction actions with
  | nil => simp [runActions]
  | cons a rest ih =>
    cases hp : perform a with
    | some e =>
      simp only [runActions, hp]
      exact ⟨rest, rfl⟩
    | none =>
      simp only [runActions, hp]
      obtain ⟨t, ht⟩ := ih
      exact ⟨t, by simp [ht]⟩

theorem runActions_stops (perform : Action → Option GoError) :
    ∀ (actions pre : List Action) (s : Action) (post : List Action),
      (runActions perform actions).2 = pre ++ s :: post → perform s ≠ none → post = [] := by
  intro actions
  induction actions with
  | nil =>
    intro pre s post h
    cases pre <;> simp [runActions] at h
  | cons a rest ih =>
    intro pre s post h hs
    cases hp : perform a with
    | some e =>
      simp only [runActions, hp] at h
      cases pre with
      | nil =>
        simp only [List.nil_append, List.cons.injEq] at h
        exact h.2.symm
      | cons y pre =>
        simp only [List.cons_append, List.cons.injEq] at h
        cases pre <;> simp at h
    | none =>
      simp only [runActions, hp] at h
      cases pre with
      | nil =>
        simp only [List.nil_append, List.cons.injEq] at h
        rw [← h.1] at hs
        exact absurd hp hs
      | cons y pre =>
        simp only [List.cons_append, List.cons.injEq] at h
        exact ih pre s post h.2 hs

/-- C7. The approval steps run in strict order.  For every browser session, the
actions `approveSSOLoginWithChrome` runs are an initial segment of
[navigate ssoUrl, wait-visible `#cli_login_button`, click `#cli_login_button`,
wait-visible `.awsui-icon-variant-success`]; after an action that returned an error no
action runs; nil is returned exactly when all four ran and none returned an error;
and when the session attaches, the navigation succeeds and the wait for the approval
button ends with the deadline error, that error is returned and only the first two
actions ran: the click and the wait for the success icon did not. -/
theorem C7_approval_steps_in_order (now : Nat) (b : Browser) (ssoUrl : String) :
    (approveSSOLoginWithChrome now b ssoUrl).executed <+: approvalSteps ssoUrl ∧
    (∀ pre s post, (approveSSOLoginWithChrome now b ssoUrl).executed = pre ++ s :: post →
      b.perform s ≠ none → post = []) ∧
    ((approveSSOLoginWithChrome now b ssoUrl).err = none ↔
      (approveSSOLoginWithChrome now b ssoUrl).executed = approvalSteps ssoUrl ∧
      ∀ s ∈ approvalSteps ssoUrl, b.perform s = none) ∧
    (b.attach = none → b.perform (Action.navigate ssoUrl) = none →
      b.perform (Action.waitVisible selAllowButton) = some contextDeadlineExceeded →
      (approveSSOLoginWithChrome now b ssoUrl).err = some contextDeadlineExceeded ∧
      (approveSSOLoginWithChrome now b ssoUrl).executed =
        [Action.navigate ssoUrl, Action.waitVisible selAllowButton] ∧
      Action.click selAllowButton ∉ (approveSSOLoginWithChrome now b ssoUrl).executed ∧
      Action.waitVisible selLoginSuccessIcon ∉
        (approveSSOLoginWithChrome now b ssoUrl).executed) := by
  refine ⟨?_, ?_, ?_, ?_⟩
  · cases hat : b.attach with
    | some e => simp [approveSSOLoginWithChrome, chromedpRun, hat]
    | none =>
      simp only [approveSSOLoginWithChrome, chromedpRun, hat]
      exact runActions_executed_isPrefix b.perform (approvalSteps ssoUrl)
  · intro pre s post h hs
    cases hat : b.attach with
    | some e =>
      simp only [approveSSOLoginWithChrome, chromedpRun, hat] at h
      cases pre <;> simp at h
    | none =>
      simp only [approveSSOLoginWithChrome, chromedpRun, hat] at h
      exact runActions_stops b.perform (approvalSteps ssoUrl) pre s post h hs
  · cases hat : b.attach with
    | some e => simp [approveSSOLoginWithChrome, chromedpRun, hat, approvalSteps]
    | none =>
      cases h1 : b.perform (Action.navigate ssoUrl) <;>
      cases h2 : b.perform (Action.waitVisible selAllowButton) <;>
      cases h3 : b.perform (Action.click selAllowButton) <;>
      cases h4 : b.perform (Action.waitVisible selLoginSuccessIcon) <;>
      simp [approveSSOLoginWithChrome, chromedpRun, hat, approvalSteps, runActions,
        h1, h2, h3, h4]
  · intro hat h1 h2
    have hrun : chromedpRun b (approvalSteps ssoUrl) =
        (some contextDeadlineExceeded,
          [Action.navigate ssoUrl, Action.waitVisible selAllowButton]) := by
      simp [chromedpRun, hat, approvalSteps, runActions, h1, h2]
    have herr : (approveSSOLoginWithChrome now b ssoUrl).err = some contextDeadlineExceeded := by
      simp only [approveSSOLoginWithChrome, hrun]
    have hex : (approveSSOLoginWithChrome now b ssoUrl).executed =
        [Action.navigate ssoUrl, Action.waitVisible selAllowButton] := by
      simp only [approveSSOLoginWithChrome, hrun]
    refine ⟨herr, hex, ?_, ?_⟩
    · rw [hex]; simp
    · rw [hex]; simp [selAllowButton, selLoginSuccessIcon]

/-- The approval sequence in a session where the approval button never shows. -/
theorem C7_approval_steps_in_order_witness :
    (approveSSOLoginWithChrome 1000 browserButtonNeverVisible urlLine).err =
      some contextDeadlineExceeded ∧
    (approveSSOLoginWithChrome 1000 browserButtonNeverVisible urlLine).executed =
      [Action.navigate urlLine, Action.waitVisible selAllowButton] ∧
    Action.click selAllowButton ∉
      (approveSSOLoginWithChrome 1000 browserButtonNeverVisible urlLine).executed ∧
    Action.waitVisible selLoginSuccessIcon ∉
      (approveSSOLoginWithChrome 1000 browserButtonNeverVisible urlLine).executed :=
  (C7_approval_steps_in_order 1000 browserButtonNeverVisible urlLine).2.2.2 rfl rfl rfl

/-! ## Error reporting: C8 -/

/-- C8 (as stated, refuted).  When `cmd.Start()` fails because the `aws` executable is
missing, `performSSOLogin` returns that very error value: it has no cause to unwrap and
is not a wrapping of the start error under any message. -/
theorem C8_start_error_not_wrapped :
    ∃ tr, performSSOLogin 0 worldCannotStart = some (some errAwsNotFound, tr) ∧
      Call.cmdStart (some errAwsNotFound) ∈ tr ∧
      errAwsNotFound.unwrap = none ∧
      ∀ msg, errAwsNotFound ≠ GoError.wrap msg errAwsNotFound := by
  refine ⟨_, rfl, by decide, rfl, ?_⟩
  intro msg h
  cases h

/-- C8 (amended).  In every failing run of `performSSOLogin` exactly one call returned
an error `e`: every call before it returned nil and no stage is invoked after it.  The
error returned is `e` wrapped with the message of main.go 29 when that call is the
browser-ensure one, `e` wrapped with the message of main.go 56 when it is the
approval, and `e` itself, unwrapped, when it is `cmd.Start()` or `cmd.Wait()`. -/
theorem C8_first_error_reported (fuel : Nat) (w : World) (err : GoError) (tr : List Call)
    (hrun : performSSOLogin fuel w = some (some err, tr)) :
    ∃ pre c post e, tr = pre ++ c :: post ∧ c.err = some e ∧
      (∀ x ∈ pre, x.err = none) ∧ stagesOf post = [] ∧
      err = reported c e ∧
      (c.stage = some Stage.ensureBrowser ∨ c.stage = some Stage.startCommand ∨
        c.stage = some Stage.approve ∨ c.stage = some Stage.waitExit) ∧
      (c.stage = some Stage.ensureBrowser → err = GoError.wrap msgEnsureChrome e) ∧
      (c.stage = some Stage.startCommand → err = e) ∧
      (c.stage = some Stage.approve → err = GoError.wrap msgApprove e) ∧
      (c.stage = some Stage.waitExit → err = e) := by
  rcases hens : ensureChromeWithRemoteDebuggingEnabled fuel w.host with _ | ⟨_ | e, events⟩
  · rw [performSSOLogin_ensure_none fuel w hens] at hrun
    cases hrun
  · rcases hs : w.cmd.start with _ | e
    · rcases ha : (approveSSOLoginWithChrome w.tApprove w.browser
        (scanForUrl w.cmd.stdout).1).err with _ | e
      · rw [performSSOLogin_approved fuel w events hens hs ha] at hrun
        simp only [Option.some.injEq, Prod.mk.injEq] at hrun
        obtain ⟨hres, htr⟩ := hrun
        subst htr
        refine ⟨[Call.ensureChrome events none, Call.withTimeout (attemptCtx w.tAttempt),
          Call.cmdStart none, Call.scan (scanForUrl w.cmd.stdout).2,
          Call.approve (scanForUrl w.cmd.stdout).1
            (approveSSOLoginWithChrome w.tApprove w.browser (scanForUrl w.cmd.stdout).1)],
          Call.cmdWait w.cmd.wait, [Call.cancel], err, by simp, by simp [Call.err, hres],
          ?_, by simp [stagesOf, Call.stage], by simp [reported], by simp [Call.stage],
          by simp [Call.stage], by simp [Call.stage], by simp [Call.stage],
          by simp [Call.stage]⟩
        intro x hx
        simp only [List.mem_cons, List.mem_singleton, List.not_mem_nil, or_false] at hx
        rcases hx with hx | hx | hx | hx | hx <;> subst hx <;> simp [Call.err, ha]
      · rw [performSSOLogin_approve_err fuel w e events hens hs ha] at hrun
        simp only [Option.some.injEq, Prod.mk.injEq] at hrun
        obtain ⟨hres, htr⟩ := hrun
        subst htr; subst hres
        refine ⟨[Call.ensureChrome events none, Call.withTimeout (attemptCtx w.tAttempt),
          Call.cmdStart none, Call.scan (scanForUrl w.cmd.stdout).2],
          Call.approve (scanForUrl w.cmd.stdout).1
            (approveSSOLoginWithChrome w.tApprove w.browser (scanForUrl w.cmd.stdout).1),
          [Call.cancel], e, by simp, by simp [Call.err, ha],
          ?_, by simp [stagesOf, Call.stage], by simp [reported], by simp [Call.stage],
          by simp [Call.stage], by simp [Call.stage], by simp [Call.stage],
          by simp [Call.stage]⟩
        intro x hx
        simp only [List.mem_cons, List.mem_singleton, List.not_mem_nil, or_false] at hx
        rcases hx with hx | hx | hx | hx <;> subst hx <;> simp [Call.err]
    · rw [performSSOLogin_start_err fuel w e events hens hs] at hrun
      simp only [Option.some.injEq, Prod.mk.injEq] at hrun
      obtain ⟨hres, htr⟩ := hrun
      subst htr; subst hres
      refine ⟨[Call.ensureChrome events none, Call.withTimeout (attemptCtx w.tAttempt)],
        Call.cmdStart (some e), [Call.cancel], e, by simp, by simp [Call.err],
        ?_, by simp [stagesOf, Call.stage], by simp [reported], by simp [Call.stage],
        by simp [Call.stage], by simp [Call.stage], by simp [Call.stage],
        by simp [Call.stage]⟩
      intro x hx
      simp only [List.mem_cons, List.mem_singleton, List.not_mem_nil, or_false] at hx
      rcases hx with hx | hx <;> subst hx <;> simp [Call.err]
  · rw [performSSOLogin_ensure_err fuel w e events hens] at hrun
    simp only [Option.some.injEq, Prod.mk.injEq, GoError.wrap.injEq] at hrun
    obtain ⟨hres, htr⟩ := hrun
    subst htr; subst hres
    refine ⟨[], Call.ensureChrome events (some e), [], e, by simp, by simp [Call.err],
      ?_, by simp [stagesOf], by simp [reported], by simp [Call.stage],
      by simp [Call.stage], by simp [Call.stage], by simp [Call.stage],
      by simp [Call.stage]⟩
    intro x hx
    cases hx

/-- Error reporting when the `aws` executable is missing. -/
theorem C8_first_error_reported_witness :
    ∃ pre c post e,
      [Call.ensureChrome [HostEvent.httpGet true] none, Call.withTimeout (attemptCtx 0),
        Call.cmdStart (some errAwsNotFound), Call.cancel] = pre ++ c :: post ∧
      c.err = some e ∧
      (∀ x ∈ pre, x.err = none) ∧ stagesOf post = [] ∧
      errAwsNotFound = reported c e ∧
      (c.stage = some Stage.ensureBrowser ∨ c.stage = some Stage.startCommand ∨
        c.stage = some Stage.approve ∨ c.stage = some Stage.waitExit) ∧
      (c.stage = some Stage.ensureBrowser → errAwsNotFound = GoError.wrap msgEnsureChrome e) ∧
      (c.stage = some Stage.startCommand → errAwsNotFound = e) ∧
      (c.stage = some Stage.approve → errAwsNotFound = GoError.wrap msgApprove e) ∧
      (c.stage = some Stage.waitExit → errAwsNotFound = e) :=
  C8_first_error_reported 0 worldCannotStart errAwsNotFound _ rfl

/-! ## Deadlines: C9 -/

/-- C9 (as stated, refuted).  In the success scenario the attempt context is made at
time 0 and the approval is entered at time 1000ms: the attempt deadline is 60000ms,
but the deadline of the context the approval hands to `chromedp.Run` is 61000ms, which
is later than the attempt deadline. -/
theorem C9_approval_deadline_later :
    ∃ res tr, performSSOLogin 0 worldSuccess = some (res, tr) ∧
      worldSuccess.tAttempt ≤ worldSuccess.tApprove ∧
      attemptDeadline tr = some 60000 ∧
      approvalDeadline tr = some 61000 ∧
      approvalDeadline tr ≠ attemptDeadline tr ∧
      ¬ (61000 ≤ 60000) := by
  refine ⟨_, _, rfl, by decide, by decide, by decide, by decide, by decide⟩

/-- C9 (amended).  In every run of `performSSOLogin` that started the login command,
the attempt context has deadline `tAttempt + 60s`, and every approval call works under
the context `approveCtx tApprove`, rooted at `context.Background()`, whose deadline is
`tApprove + 60s`: a fresh 60s counted from the time the approval is entered.  When the
approval is entered no earlier than the attempt context was made, that deadline is
never earlier than the attempt deadline and equals it only when both times are equal. -/
theorem C9_approval_has_own_deadline (fuel : Nat) (w : World) (res : Option GoError)
    (tr : List Call) (hrun : performSSOLogin fuel w = some (res, tr))
    (hstarted : Call.cmdStart none ∈ tr) :
    attemptDeadline tr = some (w.tAttempt + sixtySeconds) ∧
    approvalDeadline tr = some (w.tApprove + sixtySeconds) ∧
    (∀ u a, Call.approve u a ∈ tr →
      a.ctx = approveCtx w.tApprove ∧ a.ctx.deadline = some (w.tApprove + sixtySeconds)) ∧
    (∀ D A, attemptDeadline tr = some D → approvalDeadline tr = some A →
      w.tAttempt ≤ w.tApprove → D ≤ A ∧ (A = D ↔ w.tApprove = w.tAttempt)) := by
  have hcore : attemptDeadline tr = some (w.tAttempt + sixtySeconds) ∧
      approvalDeadline tr = some (w.tApprove + sixtySeconds) ∧
      (∀ u a, Call.approve u a ∈ tr →
        a.ctx = approveCtx w.tApprove ∧
          a.ctx.deadline = some (w.tApprove + sixtySeconds)) := by
    rcases hens : ensureChromeWithRemoteDebuggingEnabled fuel w.host with
      _ | ⟨_ | e, events⟩
    · rw [performSSOLogin_ensure_none fuel w hens] at hrun
      cases hrun
    · rcases hs : w.cmd.start with _ | e
      · rcases ha : (approveSSOLoginWithChrome w.tApprove w.browser
          (scanForUrl w.cmd.stdout).1).err with _ | e
        · rw [performSSOLogin_approved fuel w events hens hs ha] at hrun
          simp only [Option.some.injEq, Prod.mk.injEq] at hrun
          obtain ⟨_, htr⟩ := hrun
          subst htr
          refine ⟨?_, ?_, ?_⟩
          · simp [attemptDeadline, attemptCtx, withTimeout, Ctx.deadline]
          · simp [approvalDeadline, approveSSOLoginWithChrome, approveCtx, withTimeout,
              Ctx.deadline]
          · intro u a hmem
            simp only [List.mem_cons, Call.approve.injEq, List.mem_singleton,
              List.not_mem_nil, or_false, reduceCtorEq, false_or] at hmem
            obtain ⟨_, ha2⟩ := hmem
            subst ha2
            simp [approveSSOLoginWithChrome, approveCtx, withTimeout, Ctx.deadline]
        · rw [performSSOLogin_approve_err fuel w e events hens hs ha] at hrun
          simp only [Option.some.injEq, Prod.mk.injEq] at hrun
          obtain ⟨_, htr⟩ := hrun
          subst htr
          refine ⟨?_, ?_, ?_⟩
          · simp [attemptDeadline, attemptCtx, withTimeout, Ctx.deadline]
          · simp [approvalDeadline, approveSSOLoginWithChrome, approveCtx, withTimeout,
              Ctx.deadline]
          · intro u a hmem
            simp only [List.mem_cons, Call.approve.injEq, List.mem_singleton,
              List.not_mem_nil, or_false, reduceCtorEq, false_or] at hmem
            obtain ⟨_, ha2⟩ := hmem
            subst ha2
            simp [approveSSOLoginWithChrome, approveCtx, withTimeout, Ctx.deadline]
      · rw [performSSOLogin_start_err fuel w e events hens hs] at hrun
        simp only [Option.some.injEq, Prod.mk.injEq] at hrun
        obtain ⟨_, htr⟩ := hrun
        subst htr
        simp at hstarted
    · rw [performSSOLogin_ensure_err fuel w e events hens] at hrun
      simp only [Option.some.injEq, Prod.mk.injEq] at hrun
      obtain ⟨_, htr⟩ := hrun
      subst htr
      simp at hstarted
  obtain ⟨h1, h2, h3⟩ := hcore
  refine ⟨h1, h2, h3, ?_⟩
  intro D A hD hA hle
  rw [h1] at hD
  rw [h2] at hA
  simp only [Option.some.injEq] at hD hA
  subst hD; subst hA
  constructor
  · omega
  · constructor
    · intro h; omega
    · intro h; omega

/-- The two deadlines in the end-to-end success scenario. -/
theorem C9_approval_has_own_deadline_witness :
    attemptDeadline
        [Call.ensureChrome [HostEvent.httpGet true] none, Call.withTimeout (attemptCtx 0),
          Call.cmdStart none, Call.scan (scanForUrl worldSuccess.cmd.stdout).2,
          Call.approve (scanForUrl worldSuccess.cmd.stdout).1
            (approveSSOLoginWithChrome 1000 browserApproves
              (scanForUrl worldSuccess.cmd.stdout).1),
          Call.cmdWait none, Call.cancel] = some (0 + sixtySeconds) ∧
    approvalDeadline
        [Call.ensureChrome [HostEvent.httpGet true] none, Call.withTimeout (attemptCtx 0),
          Call.cmdStart none, Call.scan (scanForUrl worldSuccess.cmd.stdout).2,
          Call.approve (scanForUrl worldSuccess.cmd.stdout).1
            (approveSSOLoginWithChrome 1000 browserApproves
              (scanForUrl worldSuccess.cmd.stdout).1),
          Call.cmdWait none, Call.cancel] = some (1000 + sixtySeconds) :=
  ⟨(C9_approval_has_own_deadline 0 worldSuccess none _ rfl (by decide)).1,
    (C9_approval_has_own_deadline 0 worldSuccess none _ rfl (by decide)).2.1⟩

/-! ## The child process on the approval-timeout path: C10 -/

/-- C10 (as stated, refuted).  When the success icon never becomes visible,
`performSSOLogin` fails with the approval deadline error as cause, and the last thing
it does is the deferred `cancel()` of the context given to `exec.CommandContext`;
before that call the child process is running, after it the process is killed, not
left running. -/
theorem C10_cancel_kills_process :
    ∃ tr, performSSOLogin 0 worldIconNeverVisible =
        some (some (GoError.wrap msgApprove contextDeadlineExceeded), tr) ∧
      tr.getLast? = some Call.cancel ∧
      procAfter tr.dropLast = Proc.running ∧
      procAfter tr = Proc.killed ∧
      procAfter tr ≠ Proc.running := by
  refine ⟨_, rfl, by decide, by decide, by decide, by decide⟩

/-- C10 (amended).  When browser-ensure and `cmd.Start()` succeed, the session
attaches, the first three approval actions succeed and the wait for the success icon
ends with the deadline error, `performSSOLogin` returns that error wrapped with the
approval message and never calls `cmd.Wait()`; its last call is the deferred
`cancel()` of the process context, before which the child process is running and after
which it is killed. -/
theorem C10_timeout_path_cancels (fuel : Nat) (w : World) (events : List HostEvent)
    (hens : ensureChromeWithRemoteDebuggingEnabled fuel w.host = some (none, events))
    (hs : w.cmd.start = none) (hat : w.browser.attach = none)
    (h1 : w.browser.perform (Action.navigate (scanForUrl w.cmd.stdout).1) = none)
    (h2 : w.browser.perform (Action.waitVisible selAllowButton) = none)
    (h3 : w.browser.perform (Action.click selAllowButton) = none)
    (h4 : w.browser.perform (Action.waitVisible selLoginSuccessIcon) =
      some contextDeadlineExceeded) :
    ∃ err tr, performSSOLogin fuel w = some (some err, tr) ∧
      err = GoError.wrap msgApprove contextDeadlineExceeded ∧
      err.unwrap = some contextDeadlineExceeded ∧
      (∀ e, Call.cmdWait e ∉ tr) ∧
      tr.getLast? = some Call.cancel ∧
      procAfter tr.dropLast = Proc.running ∧
      procAfter tr = Proc.killed := by
  have ha : (approveSSOLoginWithChrome w.tApprove w.browser
      (scanForUrl w.cmd.stdout).1).err = some contextDeadlineExceeded := by
    simp [approveSSOLoginWithChrome, chromedpRun, hat, approvalSteps, runActions,
      h1, h2, h3, h4]
  refine ⟨_, _, performSSOLogin_approve_err fuel w _ events hens hs ha, rfl, rfl, ?_, ?_,
    ?_, ?_⟩
  · intro e; simp
  · simp
  · simp [procAfter, Proc.step]
  · simp [procAfter, Proc.step]

/-- The approval-timeout path in the scenario where the success icon never shows. -/
theorem C10_timeout_path_cancels_witness :
    ∃ err tr, performSSOLogin 0 worldIconNeverVisible = some (some err, tr) ∧
      err = GoError.wrap msgApprove contextDeadlineExceeded ∧
      err.unwrap = some contextDeadlineExceeded ∧
      (∀ e, Call.cmdWait e ∉ tr) ∧
      tr.getLast? = some Call.cancel ∧
      procAfter tr.dropLast = Proc.running ∧
      procAfter tr = Proc.killed :=
  C10_timeout_path_cancels 0 worldIconNeverVisible [HostEvent.httpGet true] rfl rfl rfl
    rfl rfl rfl rfl

end SsoLogin
